import Mathlib

/-!
Verification of the bbrdb host-side BBFS client.

This file gives a shallow embedding, in Lean, of the filesystem and RDB
protocol layer of the bbrdb library (`src/fs.rs`, `src/rdb.rs`,
`src/commands.rs`), and proves properties of it.

Modelling conventions:
* byte strings are `List Nat` (each element a `u8` value);
* machine integers are `Nat` with explicit `% 2 ^ 32` / `% 65536` where the
  source wraps or casts;
* Rust `Result` is `Except LibErr`; Rust panics (out-of-bounds indexing,
  failed `assert`) are modelled with the dedicated error values
  `IndexOutOfBounds` / `AssertReservedArea`, distinct from every library error;
* device interaction is modelled as a trace of `Event` values emitted by the
  operation, with the device's replies (command status words, the file
  checksum comparison) passed in as parameters; the bulk transport itself is
  modelled as reliable.
-/

deriving instance DecidableEq for Except

namespace BBRDB

/-- Byte strings (`&[u8]` / `Vec<u8>`): lists of `u8` values. -/
abbrev Bytes := List Nat

/-- `BLOCK_SIZE` from `constants.rs`. -/
def BLOCK_SIZE : Nat := 0x4000

/-- `SPARE_SIZE` from `constants.rs`. -/
def SPARE_SIZE : Nat := 0x10

/-- `NUM_FATS` from `constants.rs` (16 FAT slots at the end of the card). -/
def NUM_FATS : Nat := 16

/-- `FAT_CHECKSUM` from `fs.rs`. -/
def FAT_CHECKSUM : Nat := 0xCAD7

/-- `next_block_size` from `fs.rs`: round `size` up to a multiple of
`BLOCK_SIZE` in wrapping `u32` arithmetic
(`(size + (BLOCK_SIZE - 1)) & !(BLOCK_SIZE - 1)`). -/
def next_block_size (size : Nat) : Nat :=
  ((size + (BLOCK_SIZE - 1)) % 2 ^ 32) &&& (2 ^ 32 - BLOCK_SIZE)

/-- ASCII lowercasing of one byte (Rust `str::to_lowercase` restricted to
the ASCII range used by 8.3 filenames). -/
def lowerByte (b : Nat) : Nat := if 65 ≤ b ∧ b ≤ 90 then b + 32 else b

/-- Lowercase a byte-string filename. -/
def toLowercase (s : Bytes) : Bytes := s.map lowerByte

/-- Rust `filename.split('.')`: split a byte string at every `'.'` (byte 46).
Like the Rust iterator, it always yields at least one (possibly empty) part. -/
def splitDot : Bytes → List Bytes
  | [] => [[]]
  | c :: rest =>
    if c = 46 then [] :: splitDot rest
    else
      match splitDot rest with
      | [] => [[c]]
      | r :: rs => (c :: r) :: rs

/-- Rust `bytes.split(|b| b == &0).next().unwrap()`: the prefix strictly
before the first NUL byte. -/
def takeUntilZero : Bytes → Bytes
  | [] => []
  | b :: rest => if b = 0 then [] else b :: takeUntilZero rest

/-- `FATEntry` from `fs.rs`: one 16-bit FAT entry. -/
inductive FATEntry where
  | Free
  | EndOfChain
  | BadBlock
  | Reserved
  | Chain (n : Nat)
  deriving DecidableEq

/-- `FileValid` from `fs.rs`. -/
inductive FileValid where
  | Invalid
  | Valid
  deriving DecidableEq

/-- `FileEntry` from `fs.rs`: one 8.3 directory entry.  `name` has 8 bytes,
`ext` 3 bytes, both NUL padded; `size` is the block-aligned stored size and
`pad` the number of NUL bytes appended to the last block. -/
structure FileEntry where
  name : Bytes
  ext : Bytes
  valid : FileValid
  start : FATEntry
  pad : Nat
  size : Nat
  deriving DecidableEq

/-- `Default for FileEntry` from `fs.rs`: a blank invalid slot. -/
def FileEntry.default : FileEntry :=
  { name := List.replicate 8 0
    ext := List.replicate 3 0
    valid := FileValid.Invalid
    start := FATEntry.Free
    pad := 0
    size := 0 }

/-- `FileEntry::format_name` from `fs.rs`: render `name`/`ext` as
`name` or `name.ext`, cutting each field at its first NUL. -/
def FileEntry.format_name (e : FileEntry) : Bytes :=
  let name := takeUntilZero e.name
  let ext := takeUntilZero e.ext
  if ext = [] then name else name ++ 46 :: ext

/-- The errors of `error.rs` that the embedded operations can produce.
`CardErr` keeps the raw `i32` status that `CardError::from_i32` was given.
`IndexOutOfBounds` and `AssertReservedArea` stand for Rust panics
(out-of-bounds slice indexing, the reserved-area `assert` in
`write_file_blocks`), which are not library errors in the source. -/
inductive LibErr where
  | InvalidFATChecksum (sum : Nat)
  | NoFAT
  | FileNotFound (name : Bytes)
  | FileNameTooLong (name : Bytes)
  | InvalidFilename (name : Bytes)
  | IncorrectNumBlocks (counted toWrite : Nat)
  | NoEmptyFileSlots
  | NoFreeBlocks
  | FileTooBig (name : Bytes) (size bound : Nat)
  | ChecksumFailed (name : Bytes) (chksum : Nat)
  | NotInitialised
  | CardErr (code : Int)
  | RDBUnknown (tag : Nat)
  | WriteBlockFailed (blkno : Nat)
  | IndexOutOfBounds
  | AssertReservedArea
  deriving DecidableEq

/-- `FileEntry::set_name` from `fs.rs`: lowercase, split at the first `'.'`,
check the 8.3 bounds, and store the two parts NUL padded to 8 and 3 bytes. -/
def FileEntry.set_name (e : FileEntry) (filename : Bytes) : Except LibErr FileEntry :=
  let filename := toLowercase filename
  let split := splitDot filename
  let (name, ext) :=
    if split.length > 1 then (split.getD 0 [], split.getD 1 [])
    else (split.getD 0 [], ([] : Bytes))
  if name.length > 8 ∨ ext.length > 3 then
    .error (.FileNameTooLong filename)
  else
    .ok { e with
      name := name ++ List.replicate (8 - name.length) 0
      ext := ext ++ List.replicate (3 - ext.length) 0 }

/-- `FileEntry::set_size` from `fs.rs`: store the block-aligned size and the
padding difference. -/
def FileEntry.set_size (e : FileEntry) (filesize : Nat) : FileEntry :=
  let padded := next_block_size filesize
  let diff := padded - filesize
  { e with size := padded, pad := diff }

/-- The big-endian `u16` word sum of a byte string, in wrapping `u16`
arithmetic (`Wrapping<u16>` in the source).  `none` models the panic the
source hits on a dangling final byte (`chunks(2)` yielding a 1-byte chunk
that fails `try_into::<[u8; 2]>`). -/
def sumBE16 : Bytes → Option Nat
  | [] => some 0
  | [_] => none
  | b0 :: b1 :: rest => (sumBE16 rest).map (fun s => (b0 * 256 + b1 + s) % 65536)

/-- `check_fat_checksum` from `fs.rs`: the word sum of the whole buffer must
equal `FAT_CHECKSUM`. -/
def check_fat_checksum (data : Bytes) : Option (Except LibErr Unit) :=
  (sumBE16 data).map (fun s =>
    if s ≠ FAT_CHECKSUM then .error (.InvalidFATChecksum s) else .ok ())

/-- `fix_fat_checksum` from `fs.rs`: overwrite the final two bytes with the
big-endian `u16` that makes the whole-buffer word sum equal `FAT_CHECKSUM`.
`none` models the panics for buffers that are not exactly `BLOCK_SIZE` long
(the `data[0x3FFE..].copy_from_slice` of a 2-byte slice). -/
def fix_fat_checksum (data : Bytes) : Option Bytes :=
  if data.length = 0x4000 then
    (sumBE16 (data.take 0x3FFE)).map (fun s =>
      let checksum := (FAT_CHECKSUM + 65536 - s) % 65536
      data.take 0x3FFE ++ [checksum / 256, checksum % 256])
  else none

/-- `RDBCommand` from `rdb.rs`. -/
inductive RDBCommand where
  | DevicePrint
  | DeviceFault
  | DeviceLogCT
  | DeviceLog
  | DeviceReadyForData
  | DeviceDataCT
  | DeviceData
  | DeviceDebug
  | DeviceRamRom
  | DeviceDebugDone
  | DeviceDebugReady
  | DeviceKDebug
  | DeviceProfData
  | DeviceDataB
  | DeviceSync
  | HostLogDone
  | HostDebug
  | HostDebugCT
  | HostData
  | HostDataDone
  | HostReqRamRom
  | HostFreeRamRom
  | HostKDebug
  | HostProfSignal
  | HostDataB
  | HostSyncDone
  | HostDebugDone
  deriving DecidableEq

/-- The numeric tag of each `RDBCommand`, as declared by the `#[repr(u8)]`
enum in `rdb.rs` (`DevicePrint = 1`, ..., `DeviceKDebug = 12`,
`DeviceProfData = 22`, `DeviceDataB = 23`, `DeviceSync = 25`,
`HostLogDone = 13`, ..., `HostProfSignal = 21`, `HostDataB = 24`,
`HostSyncDone = 26`, `HostDebugDone = 27`).  `cmd as u8` uses these values. -/
def RDBCommand.toTag : RDBCommand → Nat
  | .DevicePrint => 1
  | .DeviceFault => 2
  | .DeviceLogCT => 3
  | .DeviceLog => 4
  | .DeviceReadyForData => 5
  | .DeviceDataCT => 6
  | .DeviceData => 7
  | .DeviceDebug => 8
  | .DeviceRamRom => 9
  | .DeviceDebugDone => 10
  | .DeviceDebugReady => 11
  | .DeviceKDebug => 12
  | .DeviceProfData => 22
  | .DeviceDataB => 23
  | .DeviceSync => 25
  | .HostLogDone => 13
  | .HostDebug => 14
  | .HostDebugCT => 15
  | .HostData => 16
  | .HostDataDone => 17
  | .HostReqRamRom => 18
  | .HostFreeRamRom => 19
  | .HostKDebug => 20
  | .HostProfSignal => 21
  | .HostDataB => 24
  | .HostSyncDone => 26
  | .HostDebugDone => 27

/-- `impl TryFrom<u8> for RDBCommand` from `rdb.rs`, arm for arm. -/
def RDBCommand.tryFromU8 (value : Nat) : Except Nat RDBCommand :=
  match value with
  | 1 => .ok .DevicePrint
  | 2 => .ok .DeviceFault
  | 3 => .ok .DeviceLogCT
  | 4 => .ok .DeviceLog
  | 5 => .ok .DeviceReadyForData
  | 6 => .ok .DeviceDataCT
  | 7 => .ok .DeviceData
  | 8 => .ok .DeviceDebug
  | 9 => .ok .DeviceRamRom
  | 10 => .ok .DeviceDebugDone
  | 11 => .ok .DeviceDebugReady
  | 12 => .ok .DeviceKDebug
  | 13 => .ok .DeviceProfData
  | 14 => .ok .DeviceDataB
  | 15 => .ok .DeviceSync
  | 16 => .ok .HostLogDone
  | 17 => .ok .HostDebug
  | 18 => .ok .HostDebugCT
  | 19 => .ok .HostData
  | 20 => .ok .HostDataDone
  | 21 => .ok .HostReqRamRom
  | 22 => .ok .HostFreeRamRom
  | 23 => .ok .HostKDebug
  | 24 => .ok .HostProfSignal
  | 25 => .ok .HostDataB
  | 26 => .ok .HostSyncDone
  | 27 => .ok .HostDebugDone
  | _ => .error value

/-- `encode_rdb_hdr` from `rdb.rs`: `((cmd as u8) << 2) | (len as u8)` in
`u8` arithmetic. -/
def encode_rdb_hdr (cmd : RDBCommand) (len : Nat) : Nat :=
  ((cmd.toTag <<< 2) ||| (len % 256)) % 256

/-- `decode_rdb_cmd_len` from `rdb.rs`: decode a header byte into a command
and a 2-bit length, failing with `RDBUnknown` on an unrecognised tag. -/
def decode_rdb_cmd_len (byte : Nat) : Except LibErr (RDBCommand × Nat) :=
  match RDBCommand.tryFromU8 (byte >>> 2) with
  | .ok c => .ok (c, byte &&& 0b11)
  | .error v => .error (.RDBUnknown v)

/-- `Fat` from `fs.rs`: the in-memory whole-card FAT.  `entries` covers the
whole card, `files` is the directory, `seqno` the generation counter and
`blkno` the FAT-slot index of the first fragment of this generation. -/
structure Fat where
  entries : List FATEntry
  files : List FileEntry
  seqno : Nat
  blkno : Nat
  deriving DecidableEq

/-- `FSType` from `fs.rs`: "BBFS" for a first fragment, "BBFL" for a
continuation fragment. -/
inductive FSType where
  | Bbfs
  | Bbfl
  deriving DecidableEq

/-- `FSFooter` from `fs.rs`. -/
structure FSFooter where
  fs_type : FSType
  seqno : Nat
  link_block : Nat
  chksum : Nat
  deriving DecidableEq

/-- `FSBlock` from `fs.rs`: one serialised FAT fragment (0x1000 FAT entries,
409 directory entries, footer). -/
structure FSBlock where
  fat : List FATEntry
  entries : List FileEntry
  footer : FSFooter
  deriving DecidableEq

/-- The body of `listChunks`, structurally recursive on a fuel bound.  With
`n > 0` every step consumes at least one element, so a fuel of `l.length`
always suffices and the `0` sentinel is never reached on a non-empty list. -/
def listChunksF (n : Nat) : Nat → List α → List (List α)
  | _, [] => []
  | 0, _ :: _ => []
  | fuel + 1, a :: t =>
    if n = 0 then [] else (a :: t).take n :: listChunksF n fuel ((a :: t).drop n)

/-- Rust `slice::chunks(n)`: consecutive slices of length `n`, the last one
possibly shorter; no chunks at all for an empty slice. -/
def listChunks (n : Nat) (l : List α) : List (List α) := listChunksF n l.length l

/-- The body of `Fat::blocks` from `fs.rs`, with the running `enumerate`
index made explicit: each 0x1000-entry chunk becomes a fragment; the first
fragment (index 0) carries the directory padded to 409 entries and the
"BBFS" magic, later ones a blank directory and "BBFL"; every fragment's
footer carries `seqno + 1` (wrapping `u32`) and `link_block = 0`. -/
def Fat.blocksAux (fat : Fat) : Nat → List (List FATEntry) → List FSBlock
  | _, [] => []
  | index, b :: rest =>
    { fat := b
      entries :=
        if index = 0 then (fat.files ++ List.replicate 409 FileEntry.default).take 409
        else List.replicate 409 FileEntry.default
      footer :=
        { fs_type := if index = 0 then FSType.Bbfs else FSType.Bbfl
          seqno := (fat.seqno + 1) % 2 ^ 32
          link_block := 0
          chksum := 0 } } :: fat.blocksAux (index + 1) rest

/-- `Fat::blocks` from `fs.rs`. -/
def Fat.blocks (fat : Fat) : List FSBlock :=
  fat.blocksAux 0 (listChunks 0x1000 fat.entries)

/-- A blank `FSBlock`, used only as the default value of list lookups in
statements (never produced by the embedded operations). -/
def emptyFSBlock : FSBlock :=
  { fat := []
    entries := []
    footer := { fs_type := FSType.Bbfs, seqno := 0, link_block := 0, chksum := 0 } }

/-- The device commands of `commands.rs` used by the embedded operations. -/
inductive Command where
  | WriteBlock
  | ReadBlock
  | WriteBlockAndSpare
  | ReadBlockAndSpare
  | InitFS
  | GetNumBlocks
  | SetSeqNo
  | GetSeqNo
  | ChksumFile
  | SetLED
  | SetTime
  | GetBBID
  | SignHash
  deriving DecidableEq

/-- One observable interaction with the device.  `command c arg` is a
`send_command(c, arg)`; `writeData` a `write_data` of RDB packets;
`writeFatBlock` is `write_fat_block` (which serialises the fragment, fixes
its checksum and writes it to the given NAND block — modelled at the
structured-fragment level); `writeBlockSpare` a block+spare write;
`sendBlock`/`sendSpare` the data phases of a `WriteBlockAndSpare`;
`readStatus c n` reads an `n`-word status reply for command `c`. -/
inductive Event where
  | command (c : Command) (arg : Nat)
  | writeData (cmd : RDBCommand) (data : Bytes)
  | writeFatBlock (addr : Nat) (blk : FSBlock)
  | writeBlockSpare (addr : Nat) (block : Bytes) (spare : Bytes)
  | sendBlock (data : Bytes)
  | sendSpare (data : Bytes)
  | readStatus (c : Command) (words : Nat)
  deriving DecidableEq

/-- The host-side handle state: the card size (in blocks) and the loaded
FAT, if any (`require_fat!` fails when it is absent). -/
structure HandleSt where
  cardsize : Nat
  fat : Option Fat
  deriving DecidableEq

/-- `init_fs` from `fs.rs` (the `Handle` method): issue `InitFS` and check
the one-word status; a non-zero status becomes a card error
(`CardError::from_i32`, modelled by its raw code). -/
def init_fs (initStatus : Int) : Except LibErr Unit × List Event :=
  (if initStatus ≠ 0 then .error (.CardErr initStatus) else .ok (),
   [.command .InitFS 0])

/-- The FAT-slot rotation of `update_fs` from `fs.rs`: the closure
`next_block` starts at `blkno` and steps `next_index = (next_index + 1) % 16`
(wrapping `u32` addition, and `16` divides `2 ^ 32`), so fragment `i`
(counting from 0) goes to NAND block `cardsize - ((blkno + i + 1) % 16) - 1`. -/
def fatFragmentAddrs (cardsize blkno count : Nat) : List Nat :=
  (List.range count).map (fun i => cardsize - ((blkno + i + 1) % 16) - 1)

/-- The link-and-write loop of `update_fs` from `fs.rs`: fragment `i` gets
`link_block = addrs[i + 1]` (0 for the last fragment, cast `as u16`) and is
written to `addrs[i]`. -/
def linkWrites : List FSBlock → List Nat → List Event
  | [], _ => []
  | _ :: _, [] => []
  | b :: bs, a :: rest =>
    Event.writeFatBlock a
      { b with footer := { b.footer with link_block := rest.headD 0 % 65536 } }
      :: linkWrites bs rest

/-- `update_fs` from `fs.rs`: serialise the FAT, rotate to the next FAT
slots, link the fragments, write each one, and issue `InitFS`. -/
def update_fs (st : HandleSt) (initStatus : Int) : Except LibErr Unit × List Event :=
  match st.fat with
  | none => (.error .NotInitialised, [])
  | some fat =>
    let blocks := fat.blocks
    let addrs := fatFragmentAddrs st.cardsize fat.blkno blocks.length
    let writes := linkWrites blocks addrs
    let (r, e) := init_fs initStatus
    (r, writes ++ e)

/-- The lookup predicate of `find_file`/`get_file` from `fs.rs`: a directory
slot matches when it is valid and its rendered name equals the (lowercased)
query. -/
def fileMatches (filename : Bytes) (f : FileEntry) : Bool :=
  decide (f.valid = FileValid.Valid) && decide (f.format_name = filename)

/-- `find_file` from `fs.rs`: the first valid directory entry whose rendered
name equals the lowercased query. -/
def find_file (fat : Fat) (filename : Bytes) : Option FileEntry :=
  let filename := toLowercase filename
  fat.files.find? (fileMatches filename)

/-- `get_file` from `fs.rs`, which returns a mutable reference; modelled as
the index of the matching slot. -/
def get_file_idx (fat : Fat) (filename : Bytes) : Option Nat :=
  let filename := toLowercase filename
  fat.files.findIdx? (fileMatches filename)

/-- The number of `Chain` entries in a FAT-entry list (the termination
measure for the `free_blocks` loop: each iteration overwrites one entry
with `Free`). -/
def countChain : List FATEntry → Nat
  | [] => 0
  | FATEntry.Chain _ :: rest => countChain rest + 1
  | _ :: rest => countChain rest

/-- The weight of the loop cursor for the `free_blocks` measure. -/
def chainWeight : FATEntry → Nat
  | .Chain _ => 1
  | _ => 0

/-- Overwriting one entry with `Free` removes exactly the weight of the old
entry from the `Chain` count (the decrease argument for the `free_blocks`
loop). -/
theorem countChain_set_free (l : List FATEntry) (i : Nat) (hi : i < l.length) :
    countChain (l.set i FATEntry.Free) + chainWeight (l.get ⟨i, hi⟩) = countChain l := by
  induction l generalizing i with
  | nil => simp at hi
  | cons e rest ih =>
    cases i with
    | zero =>
      cases e <;> simp [countChain, chainWeight, List.set]
    | succ j =>
      have hj : j < rest.length := by simpa using hi
      have hrec := ih j hj
      have hset : (e :: rest).set (j + 1) FATEntry.Free = e :: rest.set j FATEntry.Free := rfl
      have hget : (e :: rest).get ⟨j + 1, hi⟩ = rest.get ⟨j, hj⟩ := rfl
      rw [hset, hget]
      cases e <;> simp only [countChain] <;> omega

/-- The loop of `free_blocks` from `fs.rs`: while the cursor is `Chain(b)`,
read `entries[b]` into the cursor and overwrite `entries[b]` with `Free`.
An out-of-range `b` panics in the source (`IndexOutOfBounds` here). -/
def freeChain (entries : List FATEntry) : FATEntry → Except LibErr (List FATEntry)
  | .Chain b =>
    if h : b < entries.length then
      freeChain (entries.set b .Free) (entries.get ⟨b, h⟩)
    else .error .IndexOutOfBounds
  | _ => .ok entries
termination_by e => countChain entries + chainWeight e
decreasing_by
  rw [countChain_set_free]
  simp only [chainWeight]
  omega

/-- `free_blocks` from `fs.rs` (the `Handle` method), acting on the loaded
FAT's entry list. -/
def free_blocks (st : HandleSt) (next_block : FATEntry) : Except LibErr HandleSt :=
  match st.fat with
  | none => .error .NotInitialised
  | some fat =>
    match freeChain fat.entries next_block with
    | .error e => .error e
    | .ok entries1 => .ok { st with fat := some { fat with entries := entries1 } }

/-- `delete_file` from `fs.rs`: look the name up; if absent do nothing;
otherwise capture the entry's `start`, clear the slot to the default entry,
and free the old chain. -/
def delete_file (st : HandleSt) (filename : Bytes) : Except LibErr HandleSt :=
  let filename := toLowercase filename
  match st.fat with
  | none => .error .NotInitialised
  | some fat =>
    match get_file_idx fat filename with
    | none => .ok st
    | some i =>
      let f := fat.files.getD i FileEntry.default
      let st1 : HandleSt := { st with fat := some { fat with files := fat.files.set i FileEntry.default } }
      free_blocks st1 f.start

/-- `rename_file` from `fs.rs`: a no-op when the lowercased names are equal;
otherwise delete the target name, look the source up and overwrite its
name, failing with `FileNotFound` when it is absent. -/
def rename_file (st : HandleSt) (fromName toName : Bytes) : Except LibErr HandleSt :=
  let fromName := toLowercase fromName
  let toName := toLowercase toName
  if fromName = toName then .ok st
  else
    match delete_file st toName with
    | .error e => .error e
    | .ok st1 =>
      match st1.fat with
      | none => .error .NotInitialised
      | some fat =>
        match get_file_idx fat fromName with
        | none => .error (.FileNotFound fromName)
        | some i =>
          match (fat.files.getD i FileEntry.default).set_name toName with
          | .error e => .error e
          | .ok f1 => .ok { st1 with fat := some { fat with files := fat.files.set i f1 } }

/-- `Handle::RenameFile` from `fs.rs` (the public method): lowercase both
names, run `rename_file`, then unconditionally commit with `update_fs`. -/
def RenameFile (st : HandleSt) (fromName toName : Bytes) (initStatus : Int) :
    Except LibErr Unit × HandleSt × List Event :=
  let fromName := toLowercase fromName
  let toName := toLowercase toName
  match rename_file st fromName toName with
  | .error e => (.error e, st, [])
  | .ok st1 =>
    let (r, ev) := update_fs st1 initStatus
    (r, st1, ev)

/-- `bytes_to_blocks` from `fs.rs`. -/
def bytes_to_blocks (bytes : Nat) : Nat := (bytes + BLOCK_SIZE - 1) / BLOCK_SIZE

/-- `get_free_block_count` from `fs.rs`: the number of `Free` FAT entries. -/
def get_free_block_count (fat : Fat) : Nat :=
  fat.entries.countP (fun e => decide (e = FATEntry.Free))

/-- `validate_file_write` from `fs.rs`.  `chkMatch` is the outcome of the
device-side `ChksumFile` comparison against the existing file (the
`checksum_file` call, abstracted to its boolean result; its wire format is
modelled separately by `checksum_file`).  When a file of that name exists
and matches, the write is skipped (`Ok(false)`); when it exists and does
not match, the new size must be strictly below
`(free + existing blocks) * BLOCK_SIZE` (cast `as u32`); when no file
exists, the size must be at most `free * BLOCK_SIZE` (cast `as u32`). -/
def validate_file_write (st : HandleSt) (chkMatch : Bool) (filename : Bytes) (size : Nat) :
    Except LibErr Bool :=
  let filename := toLowercase filename
  match st.fat with
  | none => .error .NotInitialised
  | some fat =>
    match find_file fat filename with
    | some f =>
      if chkMatch then .ok false
      else
        let block_count := bytes_to_blocks f.size
        let bound := ((get_free_block_count fat + block_count) * BLOCK_SIZE) % 2 ^ 32
        if size < bound then .ok true
        else .error (.FileTooBig filename size bound)
    | none =>
      let bound := (get_free_block_count fat * BLOCK_SIZE) % 2 ^ 32
      if size ≤ bound then .ok true
      else .error (.FileTooBig filename size bound)

/-- The possible outcomes of the `Fat::check` loop under a fuel bound.
`outOfFuel` means the `while` loop of the source ran longer than the given
fuel — when it holds for every fuel, the source loops forever.
`indexPanic` is the out-of-bounds panic of `self.entries[*n as usize]`. -/
inductive CheckOutcome where
  | ok
  | indexPanic
  | outOfFuel
  deriving DecidableEq

/-- The `while b != &FATEntry::EndOfChain` loop of `Fat::check` from
`fs.rs`: on `Chain(n)` the cursor moves to `entries[n]`; on `Free`,
`BadBlock` or `Reserved` the source prints "Found invalid file" and leaves
the cursor unchanged (so the loop repeats the same state). -/
def checkFileLoop (entries : List FATEntry) : Nat → FATEntry → CheckOutcome
  | 0, _ => .outOfFuel
  | fuel + 1, b =>
    if b = .EndOfChain then .ok
    else
      match b with
      | .Chain n =>
        if h : n < entries.length then checkFileLoop entries fuel (entries.get ⟨n, h⟩)
        else .indexPanic
      | _ => checkFileLoop entries fuel b

/-- The file iteration of `Fat::check` from `fs.rs`: skip invalid slots and
run the chain loop on every valid one.  When every loop finishes the source
returns `Ok(())` — it has no error path at all. -/
def checkFiles (entries : List FATEntry) (fuel : Nat) : List FileEntry → CheckOutcome
  | [] => .ok
  | f :: rest =>
    if f.valid ≠ FileValid.Valid then checkFiles entries fuel rest
    else
      match checkFileLoop entries fuel f.start with
      | .ok => checkFiles entries fuel rest
      | r => r

/-- `Fat::check` from `fs.rs`, under a fuel bound on each file's loop. -/
def Fat.check (fat : Fat) (fuel : Nat) : CheckOutcome :=
  checkFiles fat.entries fuel fat.files

/-- A FAT whose single valid file starts at a `Free` entry (the corrupt
shape `Fat::check` is supposed to reject). -/
def fatFreeStart : Fat :=
  { entries := []
    files := [{ FileEntry.default with valid := FileValid.Valid, start := FATEntry.Free }]
    seqno := 0
    blkno := 0 }

/-- A FAT whose single valid file sits on a two-entry cycle. -/
def fatCyclic : Fat :=
  { entries := [FATEntry.Chain 1, FATEntry.Chain 0]
    files := [{ FileEntry.default with valid := FileValid.Valid, start := FATEntry.Chain 0 }]
    seqno := 0
    blkno := 0 }

/-- The device's responses for one attempt of the `write_block_spare` retry
loop in `commands.rs`: whether `request_block_write`, `send_block` and
`send_spare` go through, and the status word `check_block_write` reads. -/
structure WriteAttemptResp where
  requestOk : Bool
  sendBlockOk : Bool
  sendSpareOk : Bool
  status : Int
  deriving DecidableEq

/-- One attempt of the `write_block_spare` loop from `commands.rs`:
issue the `WriteBlockAndSpare` command, send the block, send the spare
(its first 3 bytes followed by 13 bytes of `0xFF`, as in `send_spare`),
and read the status word; each step runs only when the previous ones went
through (`try_continue!` skips to the next attempt on failure). -/
def write_attempt (block spare : Bytes) (block_num : Nat) (r : WriteAttemptResp) :
    Bool × List Event :=
  let e1 : List Event := [.command .WriteBlockAndSpare block_num]
  if !r.requestOk then (false, e1)
  else
    let e2 := e1 ++ [Event.sendBlock block]
    if !r.sendBlockOk then (false, e2)
    else
      let e3 := e2 ++ [Event.sendSpare (spare.take 3 ++ List.replicate (SPARE_SIZE - 3) 0xFF)]
      if !r.sendSpareOk then (false, e3)
      else (decide (0 ≤ r.status), e3 ++ [Event.readStatus .WriteBlockAndSpare 1])

/-- The `for _ in 0..5` retry loop of `write_block_spare` from
`commands.rs`, with the device's per-attempt responses supplied as a list
(an exhausted list behaves as an always-succeeding device). -/
def write_attempts (block spare : Bytes) (block_num : Nat) :
    List WriteAttemptResp → Nat → Except LibErr Unit × List Event
  | _, 0 => (.error (.WriteBlockFailed block_num), [])
  | resps, n + 1 =>
    let r := resps.headD { requestOk := true, sendBlockOk := true, sendSpareOk := true, status := 0 }
    let (ok1, ev) := write_attempt block spare block_num r
    if ok1 then (.ok (), ev)
    else
      let (res, ev1) := write_attempts block spare block_num resps.tail n
      (res, ev ++ ev1)

/-- `BBPlayer::write_block_spare` from `commands.rs`: a spare whose byte 5
is not `0xFF` marks a bad block — return `Ok(())` at once, before any
device interaction; otherwise run up to 5 write attempts.  A spare shorter
than 6 bytes panics on the `spare[5]` access in the source. -/
def write_block_spare (block spare : Bytes) (block_num : Nat)
    (resps : List WriteAttemptResp) : Except LibErr Unit × List Event :=
  if h : 5 < spare.length then
    if spare.get ⟨5, h⟩ ≠ 0xFF then (.ok (), [])
    else write_attempts block spare block_num resps 5
  else (.error .IndexOutOfBounds, [])

/-- Big-endian `u32` byte encoding (`u32::to_be_bytes`). -/
def u32be (n : Nat) : Bytes :=
  [n / 2 ^ 24 % 256, n / 2 ^ 16 % 256, n / 2 ^ 8 % 256, n % 256]

/-- `checksum_file` from `fs.rs`: validate the name with a throwaway
`set_name`, build the NUL-terminated name (`CString::new` fails on an
interior NUL), send `ChksumFile` with the *unpadded* NUL-terminated length
as argument, write the name zero-padded to a multiple of 4 as `HostData`,
write the checksum and size as big-endian `u32`s, and read a one-word
status; the result is `Ok(status == 0)`.  `status` is the device's reply. -/
def checksum_file (filename : Bytes) (chksum size : Nat) (status : Int) :
    Except LibErr Bool × List Event :=
  let filename := toLowercase filename
  match FileEntry.default.set_name filename with
  | .error e => (.error e, [])
  | .ok _ =>
    if 0 ∈ filename then (.error (.InvalidFilename filename), [])
    else
      let name := filename ++ [0]
      let len := name.length % 2 ^ 32
      let padded := name ++ List.replicate ((4 - name.length % 4) % 4) 0
      let checksumData := u32be chksum ++ u32be size
      (.ok (decide (status = 0)),
       [.command .ChksumFile len,
        .writeData .HostData padded,
        .writeData .HostData checksumData,
        .readStatus .ChksumFile 1])

/-- `find_next_free_block` from `fs.rs`: the index of the first `Free`
entry at position `start_at` or later. -/
def find_next_free_block (st : HandleSt) (start_at : Nat) : Except LibErr Nat :=
  match st.fat with
  | none => .error .NotInitialised
  | some fat =>
    match (fat.entries.drop start_at).findIdx? (fun e => decide (e = FATEntry.Free)) with
    | some i => .ok (i + start_at)
    | none => .error .NoFreeBlocks

/-- `find_blank_file_entry` from `fs.rs`, modelled as the index of the
first invalid directory slot. -/
def find_blank_file_entry_idx (fat : Fat) : Except LibErr Nat :=
  match fat.files.findIdx? (fun f => decide (¬ f.valid = FileValid.Valid)) with
  | some i => .ok i
  | none => .error .NoEmptyFileSlots

/-- `write_file_entry` from `fs.rs`: take the first blank slot, set its
name, mark it valid, point its `start` at `Chain(start_block as u16)` and
store the padded size.  Returns the new state and the written entry. -/
def write_file_entry (st : HandleSt) (filename : Bytes) (start_block : Nat)
    (filesize : Nat) : Except LibErr (HandleSt × FileEntry) :=
  let filename := toLowercase filename
  match st.fat with
  | none => .error .NotInitialised
  | some fat =>
    match find_blank_file_entry_idx fat with
    | .error e => .error e
    | .ok i =>
      match (fat.files.getD i FileEntry.default).set_name filename with
      | .error e => .error e
      | .ok e1 =>
        let e2 := { e1 with valid := FileValid.Valid, start := FATEntry.Chain (start_block % 65536) }
        let e3 := e2.set_size filesize
        .ok ({ st with fat := some { fat with files := fat.files.set i e3 } }, e3)

/-- The body of `allocate_blocks`, structurally recursive on a fuel bound.
Every iteration advances `allocated` by `BLOCK_SIZE ≥ 1`, so a fuel of
`size + 1` always suffices and the `0` sentinel is never reached. -/
def allocate_blocksF (st : HandleSt) (size : Nat) : Nat → Nat → Nat → Except LibErr (List Nat)
  | 0, _, _ => .ok []
  | fuel + 1, prev, allocated =>
    if allocated < size then
      match find_next_free_block st (prev + 1) with
      | .error e => .error e
      | .ok next =>
        match allocate_blocksF st size fuel (next % 65536) (allocated + BLOCK_SIZE) with
        | .error e => .error e
        | .ok rest => .ok ((next % 65536) :: rest)
    else .ok []

/-- The allocation loop of `update_fs_links` from `fs.rs`: starting from
`allocated = BLOCK_SIZE`, while `allocated < size` take the next free block
after the previous one (cast `as u16`) and advance by `BLOCK_SIZE`. -/
def allocate_blocks (st : HandleSt) (prev allocated size : Nat) :
    Except LibErr (List Nat) :=
  allocate_blocksF st size (size + 1) prev allocated

/-- The chain-writing loop of `update_fs_links` from `fs.rs`: link each
allocated block to the next and terminate the chain with `EndOfChain`. -/
def chainEntries (entries : List FATEntry) : List Nat → List FATEntry
  | [] => entries
  | [last] => entries.set last FATEntry.EndOfChain
  | cur :: next :: rest => chainEntries (entries.set cur (FATEntry.Chain next)) (next :: rest)

/-- `update_fs_links` from `fs.rs`: allocate `⌈size / BLOCK_SIZE⌉` blocks
greedily starting at `start_block` (which is always taken, even for
`size = 0`), chain them in the in-memory FAT, and return the list. -/
def update_fs_links (st : HandleSt) (start_block : Nat) (size : Nat) :
    Except LibErr (HandleSt × List Nat) :=
  match st.fat with
  | none => .error .NotInitialised
  | some fat =>
    match allocate_blocks st (start_block % 65536) BLOCK_SIZE size with
    | .error e => .error e
    | .ok rest =>
      let free_bs := (start_block % 65536) :: rest
      .ok ({ st with fat := some { fat with entries := chainEntries fat.entries free_bs } },
           free_bs)

/-- `write_file_blocks` from `fs.rs`: assert every target block lies in
`[0x40, cardsize - NUM_FATS)` (a violated `assert` panics:
`AssertReservedArea`); fail with `IncorrectNumBlocks(chunks, blocks)` when
the number of `BLOCK_SIZE` data chunks differs from the number of target
blocks; otherwise write each chunk, zero-padded to `BLOCK_SIZE`, with an
all-`0xFF` spare. -/
def write_file_blocks (st : HandleSt) (data : Bytes) (blocks_to_write : List Nat) :
    Except LibErr Unit × List Event :=
  if ¬ (blocks_to_write.all (fun b => decide (0x40 ≤ b ∧ b < st.cardsize - NUM_FATS))) then
    (.error .AssertReservedArea, [])
  else
    let chunks := listChunks BLOCK_SIZE data
    if blocks_to_write.length ≠ chunks.length then
      (.error (.IncorrectNumBlocks chunks.length blocks_to_write.length), [])
    else
      (.ok (),
       (chunks.zip blocks_to_write).map (fun p =>
         .writeBlockSpare p.2 (p.1 ++ List.replicate (BLOCK_SIZE - p.1.length) 0x00)
           (List.replicate SPARE_SIZE 0xFF)))

/-- The byte string "temp.tmp". -/
def tempName : Bytes := [116, 101, 109, 112, 46, 116, 109, 112]

/-- `write_blocks_to_temp_file` from `fs.rs`: delete any old "temp.tmp",
allocate from the first free block at or after 0x40, create the "temp.tmp"
directory entry, link the chain, and write the data blocks. -/
def write_blocks_to_temp_file (st : HandleSt) (data : Bytes) :
    Except LibErr Unit × HandleSt × List Event :=
  match delete_file st tempName with
  | .error e => (.error e, st, [])
  | .ok st1 =>
    match find_next_free_block st1 0x40 with
    | .error e => (.error e, st1, [])
    | .ok start_block =>
      let size := data.length % 2 ^ 32
      match write_file_entry st1 tempName start_block size with
      | .error e => (.error e, st1, [])
      | .ok (st2, entry) =>
        let written_size := (entry.size - entry.pad) % 2 ^ 32
        match update_fs_links st2 start_block written_size with
        | .error e => (.error e, st2, [])
        | .ok (st3, blocks_to_write) =>
          let (r, ev) := write_file_blocks st3 data blocks_to_write
          (r, st3, ev)

/-- `calc_file_checksum` from `fs.rs`: the wrapping `u32` sum of all data
bytes. -/
def calc_file_checksum (data : Bytes) : Nat :=
  data.foldl (fun a e => (a + e) % 2 ^ 32) 0

/-- `check_and_cleanup_temp_file` from `fs.rs`: compare the device-side
checksum of "temp.tmp" against the expected one; on a match rename it to
the target name, otherwise fail with `ChecksumFailed`. -/
def check_and_cleanup_temp_file (st : HandleSt) (filename : Bytes) (chksum size : Nat)
    (chkStatus : Int) : Except LibErr Unit × HandleSt × List Event :=
  let filename := toLowercase filename
  let (r, ev) := checksum_file tempName chksum size chkStatus
  match r with
  | .error e => (.error e, st, ev)
  | .ok true =>
    match rename_file st tempName filename with
    | .error e => (.error e, st, ev)
    | .ok st1 => (.ok (), st1, ev)
  | .ok false => (.error (.ChecksumFailed filename chksum), st, ev)

/-- `Handle::WriteFile` from `fs.rs`: validate (skip the write when the
existing file's device-side checksum matches, `chkMatch`), delete the old
file, write the data to "temp.tmp", commit, verify the temp file's
checksum on the device (`chkStatus`), rename it into place and commit
again.  `initStatus1`/`initStatus2` are the device's replies to the two
`InitFS` commands. -/
def WriteFile (st : HandleSt) (data : Bytes) (filename : Bytes) (chkMatch : Bool)
    (initStatus1 : Int) (chkStatus : Int) (initStatus2 : Int) :
    Except LibErr Unit × HandleSt × List Event :=
  let filename := toLowercase filename
  let chksum := calc_file_checksum data
  let size := data.length % 2 ^ 32
  match validate_file_write st chkMatch filename size with
  | .error e => (.error e, st, [])
  | .ok false => (.ok (), st, [])
  | .ok true =>
    match delete_file st filename with
    | .error e => (.error e, st, [])
    | .ok st1 =>
      let (r1, st2, ev1) := write_blocks_to_temp_file st1 data
      match r1 with
      | .error e => (.error e, st2, ev1)
      | .ok _ =>
        let (r2, ev2) := update_fs st2 initStatus1
        match r2 with
        | .error e => (.error e, st2, ev1 ++ ev2)
        | .ok _ =>
          let (r3, st3, ev3) := check_and_cleanup_temp_file st2 filename chksum size chkStatus
          match r3 with
          | .error e => (.error e, st3, ev1 ++ ev2 ++ ev3)
          | .ok _ =>
            let (r4, ev4) := update_fs st3 initStatus2
            (r4, st3, ev1 ++ ev2 ++ ev3 ++ ev4)

/-- A handle with an empty loaded FAT on a 16-block card (concrete test
state). -/
def stEmptyFat : HandleSt :=
  { cardsize := 16, fat := some { entries := [], files := [], seqno := 0, blkno := 0 } }

/-- A valid one-block directory entry named "a" (concrete test state). -/
def fileA : FileEntry :=
  { name := 97 :: List.replicate 7 0
    ext := List.replicate 3 0
    valid := FileValid.Valid
    start := FATEntry.Chain 0
    pad := 0
    size := 0x4000 }

/-- A handle whose FAT holds exactly `fileA` and no free blocks (concrete
test state). -/
def stOneFile : HandleSt :=
  { cardsize := 64, fat := some { entries := [], files := [fileA], seqno := 0, blkno := 0 } }

/-- A 96-block card with one free block at index 0x41, one blank directory
slot, and nothing else (concrete test state). -/
def fatCard96 : Fat :=
  { entries := List.replicate 0x41 FATEntry.Reserved ++ [FATEntry.Free]
    files := [FileEntry.default]
    seqno := 0
    blkno := 0 }

/-- The handle for `fatCard96`. -/
def stCard96 : HandleSt := { cardsize := 0x60, fat := some fatCard96 }

/-- A 4096-block card whose FAT has exactly one 0x1000-entry fragment
(concrete test state). -/
def fatOneFrag : Fat :=
  { entries := List.replicate 0x1000 FATEntry.Free, files := [], seqno := 5, blkno := 3 }

/-- The handle for `fatOneFrag`. -/
def stOneFrag : HandleSt := { cardsize := 4096, fat := some fatOneFrag }

/-- The "temp.tmp" directory entry that `write_file_entry` creates for a
size-0 write starting at block `sb` (statement support for the proofs). -/
def tempEntry (sb : Nat) : FileEntry :=
  { name := [116, 101, 109, 112, 0, 0, 0, 0], ext := [116, 109, 112],
    valid := FileValid.Valid, start := FATEntry.Chain (sb % 65536), pad := 0, size := 0 }

/-- The handle state after `write_file_entry` has placed `tempEntry sb` in
directory slot `bi` (statement support for the proofs). -/
def stAfterEntry (st : HandleSt) (fat : Fat) (bi sb : Nat) : HandleSt :=
  { st with fat := some { fat with files := fat.files.set bi (tempEntry sb) } }

/-- The handle state after `update_fs_links` has additionally terminated the
one-block chain at `sb % 65536` (statement support for the proofs). -/
def stAfterLinks (st : HandleSt) (fat : Fat) (bi sb : Nat) : HandleSt :=
  { st with fat := some { fat with
      entries := fat.entries.set (sb % 65536) FATEntry.EndOfChain,
      files := fat.files.set bi (tempEntry sb) } }

/-!  Helper lemmas. -/

/-- Induction on byte strings two bytes at a time, matching the recursion
of `sumBE16`. -/
theorem bytesPairInduction {P : Bytes → Prop} (h0 : P []) (h1 : ∀ a, P [a])
    (h2 : ∀ a b rest, P rest → P (a :: b :: rest)) : ∀ xs, P xs
  | [] => h0
  | [a] => h1 a
  | a :: b :: rest => h2 a b rest (bytesPairInduction h0 h1 h2 rest)

/-- A defined `sumBE16` word sum is below `2 ^ 16`. -/
theorem sumBE16_lt (xs : Bytes) : ∀ s, sumBE16 xs = some s → s < 65536 := by
  induction xs using bytesPairInduction with
  | h0 => intro s hs; simp [sumBE16] at hs; omega
  | h1 a => intro s hs; simp [sumBE16] at hs
  | h2 a b rest ih =>
    intro s hs
    simp only [sumBE16] at hs
    cases hrest : sumBE16 rest with
    | none => rw [hrest] at hs; simp at hs
    | some t => rw [hrest] at hs; simp at hs; omega

/-- `sumBE16` is defined on every even-length byte string. -/
theorem sumBE16_even (xs : Bytes) (h : xs.length % 2 = 0) : ∃ s, sumBE16 xs = some s := by
  induction xs using bytesPairInduction with
  | h0 => exact ⟨0, rfl⟩
  | h1 a => simp at h
  | h2 a b rest ih =>
    have hr : rest.length % 2 = 0 := by simp [List.length_cons] at h; omega
    obtain ⟨t, ht⟩ := ih hr
    exact ⟨(a * 256 + b + t) % 65536, by simp [sumBE16, ht]⟩

/-- Appending one big-endian word to an even-length byte string adds it to
the wrapping word sum. -/
theorem sumBE16_append_pair (xs : Bytes) :
    ∀ s a b, sumBE16 xs = some s →
      sumBE16 (xs ++ [a, b]) = some ((a * 256 + b + s) % 65536) := by
  induction xs using bytesPairInduction with
  | h0 =>
    intro s a b hs
    simp [sumBE16] at hs
    subst hs
    simp [sumBE16]
  | h1 c => intro s a b hs; simp [sumBE16] at hs
  | h2 c d rest ih =>
    intro s a b hs
    simp only [sumBE16] at hs
    cases hrest : sumBE16 rest with
    | none => rw [hrest] at hs; simp at hs
    | some t =>
      rw [hrest] at hs
      simp only [Option.map_some'] at hs
      have hrec := ih t a b hrest
      have hs2 : s = (c * 256 + d + t) % 65536 := by
        simpa using hs.symm
      subst hs2
      show sumBE16 (c :: d :: (rest ++ [a, b])) = _
      simp only [sumBE16, hrec, Option.map_some']
      refine congrArg some ?_
      omega

/-- The `Fat::check` loop never leaves a `Free`, `BadBlock` or `Reserved`
cursor: no amount of fuel makes it finish. -/
theorem checkFileLoop_stuck (entries : List FATEntry) (b : FATEntry)
    (hb : b = FATEntry.Free ∨ b = FATEntry.BadBlock ∨ b = FATEntry.Reserved) :
    ∀ fuel, checkFileLoop entries fuel b = CheckOutcome.outOfFuel := by
  intro fuel
  induction fuel with
  | zero => rfl
  | succ n ih =>
    rcases hb with h | h | h <;> subst h <;>
      simpa [checkFileLoop] using ih

/-- The `Fat::check` loop cycles forever on the two-entry cycle
`[Chain 1, Chain 0]`. -/
theorem checkFileLoop_cycle :
    ∀ fuel,
      checkFileLoop [FATEntry.Chain 1, FATEntry.Chain 0] fuel (FATEntry.Chain 0) =
        CheckOutcome.outOfFuel ∧
      checkFileLoop [FATEntry.Chain 1, FATEntry.Chain 0] fuel (FATEntry.Chain 1) =
        CheckOutcome.outOfFuel := by
  intro fuel
  induction fuel with
  | zero => exact ⟨rfl, rfl⟩
  | succ n ih =>
    constructor
    · simpa [checkFileLoop] using ih.2
    · simpa [checkFileLoop] using ih.1

/-!  The claims. -/

/-- C1: the claim says `Fat::check` (run by `read_fat`) rejects, with an
error, every FAT in which some valid file's chain fails to reach
`EndOfChain` through `Chain` links only, and that `check` terminates on
every input.  In the source the loop body for a `Free`/`BadBlock`/
`Reserved` cursor only prints "Found invalid file" and leaves the cursor
unchanged, and a cyclic chain never leaves the loop: on both corrupt
shapes below, no fuel bound ever suffices — `Fat::check` loops forever and
never produces an error (its only exit value is `Ok(())`). -/
theorem fat_check_loops_forever_on_invalid_chains :
    ∀ fuel : Nat,
      fatFreeStart.check fuel = CheckOutcome.outOfFuel ∧
      fatCyclic.check fuel = CheckOutcome.outOfFuel := by
  intro fuel
  constructor
  · have h := checkFileLoop_stuck ([] : List FATEntry) FATEntry.Free (Or.inl rfl) fuel
    simp [Fat.check, fatFreeStart, checkFiles, FileEntry.default, h]
  · have h := (checkFileLoop_cycle fuel).1
    simp [Fat.check, fatCyclic, checkFiles, FileEntry.default, h]

/-- C5: the claim says the decoder maps each listed tag to the command the
spec's table (and the `#[repr(u8)]` enum itself) assigns it — e.g. 23 to
`DeviceDataB`, 13 to `HostLogDone`, 25 to `DeviceSync` — so that decode
after encode is the identity.  The `TryFrom<u8>` table in `rdb.rs` instead
numbers the commands contiguously (13 → `DeviceProfData`,
14 → `DeviceDataB`, 15 → `DeviceSync`, 16 → `HostLogDone`, ...), which
contradicts the enum's own declared discriminants used by the encoder:
decoding tag 23 yields `HostKDebug`, and decode ∘ encode is not the
identity on `DeviceDataB`. -/
theorem rdb_decode_contradicts_declared_tags :
    RDBCommand.tryFromU8 23 = .ok .HostKDebug ∧
    RDBCommand.tryFromU8 13 = .ok .DeviceProfData ∧
    RDBCommand.tryFromU8 25 = .ok .HostDataB ∧
    RDBCommand.DeviceDataB.toTag = 23 ∧
    RDBCommand.HostLogDone.toTag = 13 ∧
    RDBCommand.DeviceSync.toTag = 25 ∧
    decode_rdb_cmd_len (encode_rdb_hdr .DeviceDataB 0) = .ok (.HostKDebug, 0) ∧
    decode_rdb_cmd_len (encode_rdb_hdr .DeviceDataB 0) ≠ .ok (.DeviceDataB, 0) := by
  decide

/-- C3: `fix_fat_checksum` overwrites the final 2 bytes of a 0x4000-byte
buffer so that the big-endian `u16` word sum of the whole buffer is
`0xCAD7` modulo `2 ^ 16`, making `check_fat_checksum` accept it; and
`check_fat_checksum` accepts exactly when the word sum is `0xCAD7`,
rejecting with `InvalidFATChecksum` exactly when it differs. -/
theorem fat_checksum_fix_then_check (data : Bytes) (h : data.length = 0x4000) :
    (∃ fixed, fix_fat_checksum data = some fixed ∧
       sumBE16 fixed = some FAT_CHECKSUM ∧
       check_fat_checksum fixed = some (.ok ())) ∧
    (∀ d s, sumBE16 d = some s →
       (check_fat_checksum d = some (.ok ()) ↔ s = FAT_CHECKSUM) ∧
       (check_fat_checksum d = some (.error (.InvalidFATChecksum s)) ↔ s ≠ FAT_CHECKSUM)) := by
  constructor
  · have hlen : (data.take 0x3FFE).length = 0x3FFE := by
      rw [List.length_take, h]; omega
    have heven : (data.take 0x3FFE).length % 2 = 0 := by rw [hlen]
    obtain ⟨s, hs⟩ := sumBE16_even _ heven
    have hslt := sumBE16_lt _ s hs
    have happ := sumBE16_append_pair _ s
      ((FAT_CHECKSUM + 65536 - s) % 65536 / 256)
      ((FAT_CHECKSUM + 65536 - s) % 65536 % 256) hs
    have hF : FAT_CHECKSUM = 51927 := rfl
    have hval : ((FAT_CHECKSUM + 65536 - s) % 65536 / 256 * 256 +
        (FAT_CHECKSUM + 65536 - s) % 65536 % 256 + s) % 65536 = FAT_CHECKSUM := by
      rw [hF]
      omega
    refine ⟨data.take 0x3FFE ++
      [(FAT_CHECKSUM + 65536 - s) % 65536 / 256,
       (FAT_CHECKSUM + 65536 - s) % 65536 % 256], ?_, ?_, ?_⟩
    · simp [fix_fat_checksum, h, hs]
    · rw [happ, hval]
    · simp [check_fat_checksum, happ, hval]
  · intro d s hs
    by_cases hsc : s = FAT_CHECKSUM
    · subst hsc
      constructor
      · simp [check_fat_checksum, hs]
      · simp [check_fat_checksum, hs]
    · constructor
      · simp [check_fat_checksum, hs, hsc]
      · simp [check_fat_checksum, hs, hsc]

/-- Witness for C3: fixing an all-zero 0x4000-byte buffer yields a buffer
whose word sum is `0xCAD7` and which `check_fat_checksum` accepts. -/
theorem fat_checksum_fix_then_check_witness :
    (List.replicate 0x4000 (0 : Nat)).length = 0x4000 ∧
    (∃ fixed, fix_fat_checksum (List.replicate 0x4000 (0 : Nat)) = some fixed ∧
       sumBE16 fixed = some FAT_CHECKSUM ∧
       check_fat_checksum fixed = some (.ok ())) :=
  ⟨by rw [List.length_replicate],
   (fat_checksum_fix_then_check (List.replicate 0x4000 (0 : Nat))
     (by rw [List.length_replicate])).1⟩

/-- Every attempt of the `write_block_spare` retry loop starts by issuing
the `WriteBlockAndSpare` command. -/
theorem write_attempt_head (block spare : Bytes) (block_num : Nat) (r : WriteAttemptResp) :
    (write_attempt block spare block_num r).2.head? =
      some (.command .WriteBlockAndSpare block_num) := by
  unfold write_attempt
  cases r.requestOk <;> cases r.sendBlockOk <;> cases r.sendSpareOk <;> simp

/-- The event trace of a positive number of write attempts starts with the
`WriteBlockAndSpare` command. -/
theorem write_attempts_head (block spare : Bytes) (block_num : Nat)
    (resps : List WriteAttemptResp) (n : Nat) :
    (write_attempts block spare block_num resps (n + 1)).2.head? =
      some (.command .WriteBlockAndSpare block_num) := by
  have hev := write_attempt_head block spare block_num
    (resps.headD { requestOk := true, sendBlockOk := true, sendSpareOk := true, status := 0 })
  unfold write_attempts
  cases hwa : write_attempt block spare block_num
      (resps.headD { requestOk := true, sendBlockOk := true, sendSpareOk := true, status := 0 }) with
  | mk ok1 ev =>
    rw [hwa] at hev
    simp only at hev
    simp only [hwa]
    cases ok1 with
    | true => simpa using hev
    | false =>
      cases hev2 : ev with
      | nil => rw [hev2] at hev; simp at hev
      | cons x t =>
        rw [hev2] at hev
        simp only [List.head?_cons, Option.some_inj] at hev
        simp [hev]

/-- C7: `write_block_spare` treats a spare whose byte 5 is not `0xFF` as a
bad block: it returns `Ok(())` at once with no device interaction at all;
and when byte 5 is `0xFF` the interaction starts with the
`WriteBlockAndSpare` command. -/
theorem write_block_spare_bad_block_skip (block spare : Bytes) (block_num : Nat)
    (resps : List WriteAttemptResp) (h : 5 < spare.length) :
    (spare.get ⟨5, h⟩ ≠ 0xFF →
      write_block_spare block spare block_num resps = (.ok (), [])) ∧
    (spare.get ⟨5, h⟩ = 0xFF →
      (write_block_spare block spare block_num resps).2.head? =
        some (.command .WriteBlockAndSpare block_num)) := by
  constructor
  · intro hbad
    simp only [List.get_eq_getElem] at hbad
    simp [write_block_spare, h, hbad]
  · intro hgood
    simp only [List.get_eq_getElem] at hgood
    have hh : (write_attempts block spare block_num resps 5).2.head? =
        some (.command .WriteBlockAndSpare block_num) :=
      write_attempts_head block spare block_num resps 4
    simp [write_block_spare, h, hgood, hh]

/-- Witness for C7: a spare with byte 5 = `0xAB` is skipped with an empty
trace; one with byte 5 = `0xFF` leads with the `WriteBlockAndSpare`
command. -/
theorem write_block_spare_bad_block_skip_witness :
    write_block_spare [1, 2] [0, 0, 0, 0, 0, 0xAB] 7 [] = (.ok (), []) ∧
    (write_block_spare [1, 2] [0, 0, 0, 0, 0, 0xFF] 7 []).2.head? =
      some (.command .WriteBlockAndSpare 7) := by
  constructor
  · exact (write_block_spare_bad_block_skip [1, 2] [0, 0, 0, 0, 0, 0xAB] 7 []
      (by decide)).1 (by decide)
  · exact (write_block_spare_bad_block_skip [1, 2] [0, 0, 0, 0, 0, 0xFF] 7 []
      (by decide)).2 (by decide)

/-- Lowercasing leaves a string with no upper-case ASCII letters unchanged. -/
theorem toLowercase_eq_self (s : Bytes) (h : ∀ c ∈ s, ¬ (65 ≤ c ∧ c ≤ 90)) :
    toLowercase s = s := by
  induction s with
  | nil => rfl
  | cons a t ih =>
    have ha := h a (by simp)
    have ht : ∀ c ∈ t, ¬ (65 ≤ c ∧ c ≤ 90) := fun c hc => h c (by simp [hc])
    have iht := ih ht
    simp only [toLowercase, List.map_cons] at iht ⊢
    rw [iht]
    simp [lowerByte, ha]

/-- Splitting a dot-free string at `'.'` yields the string itself. -/
theorem splitDot_no_dot (b : Bytes) (h : (46 : Nat) ∉ b) : splitDot b = [b] := by
  induction b with
  | nil => rfl
  | cons a t ih =>
    have ha : a ≠ 46 := fun e => h (by simp [e])
    have ht : (46 : Nat) ∉ t := fun m => h (by simp [m])
    simp [splitDot, ha, ih ht]

/-- Splitting a dot-free string with one trailing dot yields the string and
an empty extension part. -/
theorem splitDot_dot_end (b : Bytes) (h : (46 : Nat) ∉ b) :
    splitDot (b ++ [46]) = [b, []] := by
  induction b with
  | nil => rfl
  | cons a t ih =>
    have ha : a ≠ 46 := fun e => h (by simp [e])
    have ht : (46 : Nat) ∉ t := fun m => h (by simp [m])
    simp [splitDot, ha, ih ht]

/-- `takeUntilZero` passes over a NUL-free prefix. -/
theorem takeUntilZero_append (xs ys : Bytes) (h : (0 : Nat) ∉ xs) :
    takeUntilZero (xs ++ ys) = xs ++ takeUntilZero ys := by
  induction xs with
  | nil => rfl
  | cons a t ih =>
    have ha : a ≠ 0 := fun e => h (by simp [e])
    have ht : (0 : Nat) ∉ t := fun m => h (by simp [m])
    simp [takeUntilZero, ha, ih ht]

/-- `takeUntilZero` of an all-NUL string is empty. -/
theorem takeUntilZero_replicate_zero (k : Nat) :
    takeUntilZero (List.replicate k 0) = [] := by
  cases k <;> simp [takeUntilZero, List.replicate]

/-- C10: for a 1-to-8-character lowercase dot-free NUL-free base name `b`,
`set_name` stores identical `name`/`ext` fields for `b` and for `b ++ "."`
(trailing dot, empty extension), and `format_name` renders the stored entry
back as `b` with no trailing dot — so a file written under `b ++ "."` is
only findable under `b` (the lookup compares `format_name` against the
lowercased query, and the rendered name differs from `b ++ "."`). -/
theorem trailing_dot_same_entry (e : FileEntry) (b : Bytes)
    (h1 : 1 ≤ b.length) (h8 : b.length ≤ 8) (hdot : (46 : Nat) ∉ b)
    (hz : (0 : Nat) ∉ b) (hlower : ∀ c ∈ b, ¬ (65 ≤ c ∧ c ≤ 90)) :
    e.set_name (b ++ [46]) = e.set_name b ∧
    ∃ e1, e.set_name b = .ok e1 ∧
      e1.format_name = b ∧
      e1.format_name ≠ toLowercase (b ++ [46]) := by
  have hlb : toLowercase b = b := toLowercase_eq_self b hlower
  have hlb2 : toLowercase (b ++ [46]) = b ++ [46] := by
    refine toLowercase_eq_self _ ?_
    intro c hc
    rcases List.mem_append.1 hc with hcb | hcd
    · exact hlower c hcb
    · simp at hcd; omega
  have hsp1 : splitDot b = [b] := splitDot_no_dot b hdot
  have hsp2 : splitDot (b ++ [46]) = [b, []] := splitDot_dot_end b hdot
  have hnotlong : ¬ (b.length > 8 ∨ ([] : Bytes).length > 3) := by simp; omega
  have hset1 : e.set_name b = .ok
      { e with name := b ++ List.replicate (8 - b.length) 0
               ext := [] ++ List.replicate (3 - ([] : Bytes).length) 0 } := by
    simp [FileEntry.set_name, hlb, hsp1, hnotlong]; omega
  have hset2 : e.set_name (b ++ [46]) = .ok
      { e with name := b ++ List.replicate (8 - b.length) 0
               ext := [] ++ List.replicate (3 - ([] : Bytes).length) 0 } := by
    simp [FileEntry.set_name, hlb2, hsp2, hnotlong]; omega
  have hfmt : FileEntry.format_name
      { e with name := b ++ List.replicate (8 - b.length) 0
               ext := [] ++ List.replicate (3 - ([] : Bytes).length) 0 } = b := by
    have hname : takeUntilZero (b ++ List.replicate (8 - b.length) 0) = b := by
      rw [takeUntilZero_append b _ hz, takeUntilZero_replicate_zero, List.append_nil]
    have hext : takeUntilZero [0, 0, 0] = [] := by decide
    simp [FileEntry.format_name, hname, hext]
  refine ⟨hset2.trans hset1.symm, _, hset1, hfmt, ?_⟩
  rw [hfmt, hlb2]
  intro heq
  have hlenq := congrArg List.length heq
  simp at hlenq

/-- Witness for C10 at the base name "a". -/
theorem trailing_dot_same_entry_witness :
    FileEntry.default.set_name ([97] ++ [46]) = FileEntry.default.set_name [97] ∧
    ∃ e1, FileEntry.default.set_name [97] = .ok e1 ∧
      e1.format_name = [97] ∧
      e1.format_name ≠ toLowercase ([97] ++ [46]) :=
  trailing_dot_same_entry FileEntry.default [97] (by decide) (by decide) (by decide)
    (by decide) (by decide)

/-- `linkWrites` pairs blocks and addresses one for one. -/
theorem linkWrites_length :
    ∀ (blocks : List FSBlock) (addrs : List Nat), blocks.length = addrs.length →
      (linkWrites blocks addrs).length = blocks.length := by
  intro blocks
  induction blocks with
  | nil => intro addrs h; simp [linkWrites]
  | cons b bs ih =>
    intro addrs h
    cases addrs with
    | nil => simp at h
    | cons a rest =>
      simp only [linkWrites, List.length_cons] at h ⊢
      exact congrArg (· + 1) (ih rest (by omega))

/-- The `i`-th write of `linkWrites` targets the `i`-th address and carries
the `i`-th block with its `link_block` set to the following address (0 at
the end), cast `as u16`. -/
theorem linkWrites_getElem? :
    ∀ (blocks : List FSBlock) (addrs : List Nat) (i : Nat),
      blocks.length = addrs.length → i < blocks.length →
      (linkWrites blocks addrs)[i]? =
        some (.writeFatBlock (addrs.getD i 0)
          { blocks.getD i emptyFSBlock with
            footer := { (blocks.getD i emptyFSBlock).footer with
                        link_block := addrs.getD (i + 1) 0 % 65536 } }) := by
  intro blocks
  induction blocks with
  | nil => intro addrs i h hi; simp at hi
  | cons b bs ih =>
    intro addrs i h hi
    cases addrs with
    | nil => simp at h
    | cons a rest =>
      cases i with
      | zero => cases rest <;> simp [linkWrites]
      | succ j =>
        have h2 : bs.length = rest.length := by simpa using h
        have hj : j < bs.length := by simpa using hi
        simpa [linkWrites] using ih rest j h2 hj

/-- `Fat.blocksAux` produces one fragment per chunk. -/
theorem blocksAux_length (fat : Fat) :
    ∀ (base : Nat) (chunks : List (List FATEntry)),
      (fat.blocksAux base chunks).length = chunks.length := by
  intro base chunks
  induction chunks generalizing base with
  | nil => rfl
  | cons c rest ih =>
    simp only [Fat.blocksAux, List.length_cons]
    exact congrArg (· + 1) (ih (base + 1))

/-- The `i`-th fragment of `Fat.blocksAux`: the `i`-th chunk, the directory
only on overall index 0, footer type BBFS exactly on overall index 0, and
`seqno + 1` everywhere. -/
theorem blocksAux_getElem? (fat : Fat) :
    ∀ (base : Nat) (chunks : List (List FATEntry)) (i : Nat), i < chunks.length →
      (fat.blocksAux base chunks)[i]? =
        some { fat := chunks.getD i []
               entries :=
                 if base + i = 0 then
                   (fat.files ++ List.replicate 409 FileEntry.default).take 409
                 else List.replicate 409 FileEntry.default
               footer :=
                 { fs_type := if base + i = 0 then FSType.Bbfs else FSType.Bbfl
                   seqno := (fat.seqno + 1) % 2 ^ 32
                   link_block := 0
                   chksum := 0 } } := by
  intro base chunks
  induction chunks generalizing base with
  | nil => intro i hi; simp at hi
  | cons c rest ih =>
    intro i hi
    cases i with
    | zero =>
      simp only [Fat.blocksAux, List.getElem?_cons_zero, List.getD_cons_zero, Nat.add_zero]
    | succ j =>
      have hj : j < rest.length := by simpa using hi
      have hrec := ih (base + 1) j hj
      have harith : base + 1 + j = base + (j + 1) := by omega
      rw [harith] at hrec
      simp only [Fat.blocksAux, List.getElem?_cons_succ, List.getD_cons_succ]
      exact hrec

/-- Every fragment of `Fat.blocks` carries the bumped sequence number. -/
theorem blocksAux_seqno (fat : Fat) :
    ∀ (base : Nat) (chunks : List (List FATEntry)) (b : FSBlock),
      b ∈ fat.blocksAux base chunks → b.footer.seqno = (fat.seqno + 1) % 2 ^ 32 := by
  intro base chunks
  induction chunks generalizing base with
  | nil => intro b hb; simp [Fat.blocksAux] at hb
  | cons c rest ih =>
    intro b hb
    simp only [Fat.blocksAux, List.mem_cons] at hb
    rcases hb with hb | hb
    · subst hb; rfl
    · exact ih (base + 1) b hb

/-- Every event of `linkWrites` is a fragment write of one of the blocks,
with only its `link_block` changed. -/
theorem linkWrites_mem (e : Event) :
    ∀ (blocks : List FSBlock) (addrs : List Nat), e ∈ linkWrites blocks addrs →
      ∃ b a lb, b ∈ blocks ∧
        e = .writeFatBlock a { b with footer := { b.footer with link_block := lb } } := by
  intro blocks
  induction blocks with
  | nil => intro addrs he; simp [linkWrites] at he
  | cons b bs ih =>
    intro addrs he
    cases addrs with
    | nil => simp [linkWrites] at he
    | cons a rest =>
      simp only [linkWrites, List.mem_cons] at he
      rcases he with he | he
      · exact ⟨b, a, rest.headD 0 % 65536, by simp, he⟩
      · obtain ⟨b1, a1, lb1, hmem, heqv⟩ := ih rest he
        exact ⟨b1, a1, lb1, by simp [hmem], heqv⟩

/-- The length of `fatFragmentAddrs`. -/
theorem fatFragmentAddrs_length (c b n : Nat) : (fatFragmentAddrs c b n).length = n := by
  simp [fatFragmentAddrs]

/-- The `i`-th rotated FAT-slot address. -/
theorem fatFragmentAddrs_getD (c b n i : Nat) (hi : i < n) :
    (fatFragmentAddrs c b n).getD i 0 = c - ((b + i + 1) % 16) - 1 := by
  rw [List.getD_eq_getElem?_getD]
  simp [fatFragmentAddrs, List.getElem?_map, List.getElem?_range hi]

/-- Out-of-range `fatFragmentAddrs` lookups give the default 0. -/
theorem fatFragmentAddrs_getD_past (c b n i : Nat) (hi : ¬ i < n) :
    (fatFragmentAddrs c b n).getD i 0 = 0 := by
  rw [List.getD_eq_getElem?_getD]
  have : (fatFragmentAddrs c b n)[i]? = none := by
    rw [List.getElem?_eq_none]
    rw [fatFragmentAddrs_length]
    omega
  simp [this]

/-- C4 (counterexample): on a card with no free blocks and an existing
one-block file "a" whose device-side checksum mismatches, the claim allows
a write of exactly `BLOCK_SIZE * (free + existing blocks)` = 0x4000 bytes,
but `validate_file_write` uses a strict comparison and rejects it with
`FileTooBig`. -/
theorem validate_file_write_boundary_counterexample :
    validate_file_write stOneFile false [97] 0x4000 =
      .error (.FileTooBig [97] 0x4000 0x4000) ∧
    ((get_free_block_count { entries := [], files := [fileA], seqno := 0, blkno := 0 } +
        bytes_to_blocks fileA.size) * BLOCK_SIZE) % 2 ^ 32 = 0x4000 := by
  constructor
  · decide
  · decide

/-- C4 (amended): `validate_file_write` raises `FileTooBig` exactly when
the requested size exceeds the capacity bound, but the two branches use
different comparisons: for a fresh name the bound is inclusive
(`size ≤ free · BLOCK_SIZE` is allowed), while for an existing file with a
mismatching device-side checksum the comparison is strict
(`size < (free + existing blocks) · BLOCK_SIZE` is required), so a size
exactly equal to that bound is rejected, not allowed. -/
theorem validate_file_write_capacity (st : HandleSt) (fat : Fat) (filename : Bytes)
    (size : Nat) (hfat : st.fat = some fat) :
    (find_file fat (toLowercase filename) = none →
      ((validate_file_write st false filename size = .ok true ↔
          size ≤ get_free_block_count fat * BLOCK_SIZE % 2 ^ 32) ∧
       (validate_file_write st false filename size =
          .error (.FileTooBig (toLowercase filename) size
            (get_free_block_count fat * BLOCK_SIZE % 2 ^ 32)) ↔
          get_free_block_count fat * BLOCK_SIZE % 2 ^ 32 < size))) ∧
    (∀ f, find_file fat (toLowercase filename) = some f →
      ((validate_file_write st false filename size = .ok true ↔
          size < (get_free_block_count fat + bytes_to_blocks f.size) * BLOCK_SIZE % 2 ^ 32) ∧
       (validate_file_write st false filename size =
          .error (.FileTooBig (toLowercase filename) size
            ((get_free_block_count fat + bytes_to_blocks f.size) * BLOCK_SIZE % 2 ^ 32)) ↔
          (get_free_block_count fat + bytes_to_blocks f.size) * BLOCK_SIZE % 2 ^ 32 ≤ size))) := by
  constructor
  · intro hnone
    simp only [validate_file_write, hfat, hnone]
    constructor
    · by_cases hle : size ≤ get_free_block_count fat * BLOCK_SIZE % 2 ^ 32 <;>
        simp [hle]
    · by_cases hle : size ≤ get_free_block_count fat * BLOCK_SIZE % 2 ^ 32 <;>
        simp [hle]
  · intro f hsome
    simp only [validate_file_write, hfat, hsome]
    constructor
    · by_cases hlt : size < (get_free_block_count fat + bytes_to_blocks f.size) * BLOCK_SIZE % 2 ^ 32 <;>
        simp [hlt]
    · by_cases hlt : size < (get_free_block_count fat + bytes_to_blocks f.size) * BLOCK_SIZE % 2 ^ 32 <;>
        simp [hlt]

/-- Witness for C4 on the concrete card `stOneFile` with the file "a". -/
theorem validate_file_write_capacity_witness :
    stOneFile.fat = some { entries := [], files := [fileA], seqno := 0, blkno := 0 } ∧
    (∀ f, find_file { entries := [], files := [fileA], seqno := 0, blkno := 0 }
        (toLowercase [97]) = some f →
      ((validate_file_write stOneFile false [97] 0x4000 = .ok true ↔
          0x4000 < (get_free_block_count { entries := [], files := [fileA], seqno := 0, blkno := 0 } +
            bytes_to_blocks f.size) * BLOCK_SIZE % 2 ^ 32) ∧
       (validate_file_write stOneFile false [97] 0x4000 =
          .error (.FileTooBig (toLowercase [97]) 0x4000
            ((get_free_block_count { entries := [], files := [fileA], seqno := 0, blkno := 0 } +
              bytes_to_blocks f.size) * BLOCK_SIZE % 2 ^ 32)) ↔
          (get_free_block_count { entries := [], files := [fileA], seqno := 0, blkno := 0 } +
            bytes_to_blocks f.size) * BLOCK_SIZE % 2 ^ 32 ≤ 0x4000))) :=
  ⟨rfl, (validate_file_write_capacity stOneFile
    { entries := [], files := [fileA], seqno := 0, blkno := 0 } [97] 0x4000 rfl).2⟩

/-- C6 (counterexample): on the concrete state `stEmptyFat`, the public
`RenameFile("a", "a")` does return `Ok` and leaves the in-memory FAT
unchanged, but its device trace is not empty: `update_fs` still runs and
issues `InitFS`, committing a fresh FAT generation — so "writes nothing to
the device / no new FAT generation is committed" is false. -/
theorem rename_self_commits_counterexample :
    RenameFile stEmptyFat [97] [97] 0 = (.ok (), stEmptyFat, [.command .InitFS 0]) ∧
    (RenameFile stEmptyFat [97] [97] 0).2.2 ≠ [] := by
  constructor
  · decide
  · decide

/-- C6 (amended): `RenameFile(a, a)` (names equal after lowercasing) leaves
the in-memory FAT and directory unchanged and the private `rename_file` is
a no-op, but the public method still commits: it runs `update_fs`, whose
trace is non-empty and consists of fragment writes carrying `seqno + 1`
followed by the `InitFS` command. -/
theorem rename_self_keeps_fat_but_commits (st : HandleSt) (fat : Fat) (a b : Bytes)
    (initStatus : Int) (heq : toLowercase a = toLowercase b) (hfat : st.fat = some fat) :
    rename_file st a b = .ok st ∧
    RenameFile st a b initStatus =
      ((update_fs st initStatus).1, st, (update_fs st initStatus).2) ∧
    (update_fs st initStatus).2 ≠ [] ∧
    (∀ e ∈ (update_fs st initStatus).2,
      e = .command .InitFS 0 ∨
      ∃ addr blk, e = .writeFatBlock addr blk ∧
        blk.footer.seqno = (fat.seqno + 1) % 2 ^ 32) := by
  have heq2 : toLowercase (toLowercase a) = toLowercase (toLowercase b) :=
    congrArg toLowercase heq
  refine ⟨by simp [rename_file, heq], ?_, ?_, ?_⟩
  · simp only [RenameFile, rename_file, heq2, if_pos]
  · simp [update_fs, hfat, init_fs]
  · intro e he
    rw [update_fs] at he
    rw [hfat] at he
    simp only [init_fs] at he
    rcases List.mem_append.1 he with hw | hcmd
    · right
      obtain ⟨blok, addr, lb, hmem, heqv⟩ := linkWrites_mem e _ _ hw
      refine ⟨addr, _, heqv, ?_⟩
      simpa using blocksAux_seqno fat 0 _ blok hmem
    · left
      simpa using hcmd

/-- Witness for C6 on the concrete state `stEmptyFat`. -/
theorem rename_self_keeps_fat_but_commits_witness :
    rename_file stEmptyFat [97] [97] = .ok stEmptyFat ∧
    RenameFile stEmptyFat [97] [97] 0 =
      ((update_fs stEmptyFat 0).1, stEmptyFat, (update_fs stEmptyFat 0).2) ∧
    (update_fs stEmptyFat 0).2 ≠ [] ∧
    (∀ e ∈ (update_fs stEmptyFat 0).2,
      e = .command .InitFS 0 ∨
      ∃ addr blk, e = .writeFatBlock addr blk ∧
        blk.footer.seqno = (0 + 1) % 2 ^ 32) :=
  rename_self_keeps_fat_but_commits stEmptyFat
    { entries := [], files := [], seqno := 0, blkno := 0 } [97] [97] 0 rfl rfl

/-- C2: for a loaded FAT with first-fragment slot `blkno`, a successful
`update_fs` writes the serialised fragments, in order, to the NAND blocks
`cardsize - s - 1` for the consecutive slots `s = (blkno + 1 + i) % 16`;
every written fragment carries `seqno + 1` (wrapping `u32`); each
fragment's `link_block` holds the NAND address of the next fragment and 0
for the last; and `InitFS` is issued after all fragment writes.
(`cardsize ≤ 65536` keeps the `as u16` cast of `link_block` lossless;
`0x1000 ∣ entries.length` is the fragment shape `Fat::blocks` requires to
avoid its `try_into` panic.) -/
theorem update_fs_commit_schedule (st : HandleSt) (fat : Fat) (initStatus : Int)
    (hfat : st.fat = some fat) (_hdvd : 0x1000 ∣ fat.entries.length)
    (hlo : 16 ≤ st.cardsize) (hhi : st.cardsize ≤ 65536) (hstatus : initStatus = 0) :
    ∃ writes : List Event,
      update_fs st initStatus = (.ok (), writes ++ [.command .InitFS 0]) ∧
      writes.length = fat.blocks.length ∧
      ∀ i, i < writes.length →
        ∃ blk : FSBlock,
          writes[i]? =
            some (.writeFatBlock (st.cardsize - ((fat.blkno + i + 1) % 16) - 1) blk) ∧
          blk.footer.seqno = (fat.seqno + 1) % 2 ^ 32 ∧
          blk.footer.fs_type = (if i = 0 then FSType.Bbfs else FSType.Bbfl) ∧
          blk.footer.link_block =
            (if i + 1 < writes.length then st.cardsize - ((fat.blkno + i + 2) % 16) - 1
             else 0) ∧
          blk.fat = (listChunks 0x1000 fat.entries).getD i [] := by
  subst hstatus
  have hlena :
      (fatFragmentAddrs st.cardsize fat.blkno fat.blocks.length).length =
        fat.blocks.length :=
    fatFragmentAddrs_length _ _ _
  have hwlen :
      (linkWrites fat.blocks (fatFragmentAddrs st.cardsize fat.blkno fat.blocks.length)).length =
        fat.blocks.length :=
    linkWrites_length _ _ hlena.symm
  refine ⟨linkWrites fat.blocks (fatFragmentAddrs st.cardsize fat.blkno fat.blocks.length),
    ?_, hwlen, ?_⟩
  · simp [update_fs, hfat, init_fs]
  · intro i hi
    rw [hwlen] at hi
    have hget := linkWrites_getElem? fat.blocks
      (fatFragmentAddrs st.cardsize fat.blkno fat.blocks.length) i hlena.symm hi
    have hbi : i < (listChunks 0x1000 fat.entries).length := by
      have hb2 : fat.blocks.length = (listChunks 0x1000 fat.entries).length :=
        blocksAux_length fat 0 (listChunks 0x1000 fat.entries)
      omega
    have hblk := blocksAux_getElem? fat 0 (listChunks 0x1000 fat.entries) i hbi
    simp only [Nat.zero_add] at hblk
    have hgd : fat.blocks.getD i emptyFSBlock =
        { fat := (listChunks 0x1000 fat.entries).getD i []
          entries :=
            if i = 0 then (fat.files ++ List.replicate 409 FileEntry.default).take 409
            else List.replicate 409 FileEntry.default
          footer :=
            { fs_type := if i = 0 then FSType.Bbfs else FSType.Bbfl
              seqno := (fat.seqno + 1) % 2 ^ 32
              link_block := 0
              chksum := 0 } } := by
      rw [List.getD_eq_getElem?_getD]
      show (fat.blocksAux 0 (listChunks 0x1000 fat.entries))[i]?.getD emptyFSBlock = _
      rw [hblk]
      rfl
    have haddr := fatFragmentAddrs_getD st.cardsize fat.blkno fat.blocks.length i hi
    rw [hgd, haddr] at hget
    by_cases hnext : i + 1 < fat.blocks.length
    · have haddr2 :=
        fatFragmentAddrs_getD st.cardsize fat.blkno fat.blocks.length (i + 1) hnext
      have harith : fat.blkno + (i + 1) + 1 = fat.blkno + i + 2 := by omega
      rw [harith] at haddr2
      rw [haddr2] at hget
      have h16 : (fat.blkno + i + 2) % 16 < 16 := Nat.mod_lt _ (by norm_num)
      have hmod : (st.cardsize - ((fat.blkno + i + 2) % 16) - 1) % 65536 =
          st.cardsize - ((fat.blkno + i + 2) % 16) - 1 := by
        apply Nat.mod_eq_of_lt
        omega
      rw [hmod] at hget
      refine ⟨_, hget, rfl, rfl, ?_, rfl⟩
      rw [if_pos (by omega : i + 1 <
        (linkWrites fat.blocks
          (fatFragmentAddrs st.cardsize fat.blkno fat.blocks.length)).length)]
    · have haddr2 := fatFragmentAddrs_getD_past st.cardsize fat.blkno fat.blocks.length
        (i + 1) hnext
      rw [haddr2] at hget
      rw [show (0 : Nat) % 65536 = 0 from rfl] at hget
      refine ⟨_, hget, rfl, rfl, ?_, rfl⟩
      rw [if_neg (by omega : ¬ i + 1 <
        (linkWrites fat.blocks
          (fatFragmentAddrs st.cardsize fat.blkno fat.blocks.length)).length)]

/-- Witness for C2 on the one-fragment card `stOneFrag`. -/
theorem update_fs_commit_schedule_witness :
    stOneFrag.fat = some fatOneFrag ∧
    (∃ writes : List Event,
      update_fs stOneFrag 0 = (.ok (), writes ++ [.command .InitFS 0]) ∧
      writes.length = fatOneFrag.blocks.length ∧
      ∀ i, i < writes.length →
        ∃ blk : FSBlock,
          writes[i]? =
            some (.writeFatBlock (stOneFrag.cardsize - ((fatOneFrag.blkno + i + 1) % 16) - 1) blk) ∧
          blk.footer.seqno = (fatOneFrag.seqno + 1) % 2 ^ 32 ∧
          blk.footer.fs_type = (if i = 0 then FSType.Bbfs else FSType.Bbfl) ∧
          blk.footer.link_block =
            (if i + 1 < writes.length then
              stOneFrag.cardsize - ((fatOneFrag.blkno + i + 2) % 16) - 1
             else 0) ∧
          blk.fat = (listChunks 0x1000 fatOneFrag.entries).getD i []) :=
  ⟨rfl, update_fs_commit_schedule stOneFrag fatOneFrag 0 rfl
    (by show (0x1000 : Nat) ∣ (List.replicate 0x1000 FATEntry.Free).length
        rw [List.length_replicate])
    (by decide) (by decide) rfl⟩

/-- C8 (counterexample): for the name "a" the NUL-terminated form is
`[97, 0]` (length 2) and its 4-byte-padded form `[97, 0, 0, 0]` (length 4).
The claim says the `ChksumFile` argument is the padded length 4, but the
code sends the unpadded length 2 (the padded variant is present only in a
commented-out line). -/
theorem checksum_file_len_counterexample :
    (checksum_file [97] 0 0 0).2.head? = some (.command .ChksumFile 2) ∧
    ¬ (checksum_file [97] 0 0 0).2.head? = some (.command .ChksumFile 4) := by
  constructor
  · decide
  · decide

/-- C8 (amended): the `u32` sent with the device-side `ChksumFile` command
is the *unpadded* length of the NUL-terminated name (name bytes + 1, as
`u32`); the name is then written as `HostData` zero-padded to a multiple
of 4 (the padded buffer's length is divisible by 4), followed by one more
`HostData` write holding the big-endian `u32` checksum and size, and a
one-word status read whose zero-ness is the result. -/
theorem checksum_file_wire_format (filename : Bytes) (chksum size : Nat) (status : Int)
    (e1 : FileEntry) (hname : FileEntry.default.set_name (toLowercase filename) = .ok e1)
    (hnul : (0 : Nat) ∉ toLowercase filename) :
    checksum_file filename chksum size status =
      (.ok (decide (status = 0)),
       [.command .ChksumFile (((toLowercase filename).length + 1) % 2 ^ 32),
        .writeData .HostData ((toLowercase filename ++ [0]) ++
          List.replicate ((4 - ((toLowercase filename).length + 1) % 4) % 4) 0),
        .writeData .HostData (u32be chksum ++ u32be size),
        .readStatus .ChksumFile 1]) ∧
    (4 : Nat) ∣ ((toLowercase filename ++ [0]) ++
        List.replicate ((4 - ((toLowercase filename).length + 1) % 4) % 4) 0).length := by
  constructor
  · simp [checksum_file, hname, hnul]
  · simp only [List.length_append, List.length_replicate, List.length_cons,
      List.length_nil]
    omega

/-- Witness for C8 at the name "a" with checksum 5 and size 6. -/
theorem checksum_file_wire_format_witness :
    checksum_file [97] 5 6 0 =
      (.ok true,
       [.command .ChksumFile 2, .writeData .HostData [97, 0, 0, 0],
        .writeData .HostData (u32be 5 ++ u32be 6), .readStatus .ChksumFile 1]) := by
  have h := (checksum_file_wire_format [97] 5 6 0
    { name := [97, 0, 0, 0, 0, 0, 0, 0], ext := [0, 0, 0], valid := FileValid.Invalid
      start := FATEntry.Free, pad := 0, size := 0 } (by decide) (by decide)).1
  exact h.trans (by decide)

/-- ASCII lowercasing is idempotent bytewise. -/
theorem lowerByte_idem (b : Nat) : lowerByte (lowerByte b) = lowerByte b := by
  unfold lowerByte
  by_cases h : 65 ≤ b ∧ b ≤ 90
  · rw [if_pos h, if_neg (by omega)]
  · rw [if_neg h, if_neg h]

/-- Lowercasing a filename is idempotent. -/
theorem toLowercase_idem (s : Bytes) : toLowercase (toLowercase s) = toLowercase s := by
  unfold toLowercase
  rw [List.map_map]
  exact List.map_congr_left (fun a _ => lowerByte_idem a)

/-- When `find?` misses, `findIdx?` misses too (the bridge between the
`find_file` and `get_file` lookups). -/
theorem findIdx?_eq_none_of_find?_eq_none (p : α → Bool) (l : List α)
    (h : l.find? p = none) : l.findIdx? p = none := by
  induction l with
  | nil => rfl
  | cons a t ih =>
    cases hpa : p a with
    | true => rw [List.find?_cons_of_pos _ hpa] at h; exact absurd h (by simp)
    | false =>
      rw [List.find?_cons_of_neg _ (by simp [hpa])] at h
      rw [List.findIdx?_cons, hpa]
      simp [ih h]

/-- A hit of `find_next_free_block` lies at or after the requested start. -/
theorem find_next_free_block_lower (st : HandleSt) (start_at k : Nat)
    (h : find_next_free_block st start_at = .ok k) : start_at ≤ k := by
  unfold find_next_free_block at h
  cases hf : st.fat with
  | none => simp only [hf] at h; exact absurd h (by simp)
  | some fat =>
    simp only [hf] at h
    cases hidx : (fat.entries.drop start_at).findIdx? (fun e => decide (e = FATEntry.Free)) with
    | none => simp only [hidx] at h; exact absurd h (by simp)
    | some i =>
      simp only [hidx] at h
      simp only [Except.ok.injEq] at h
      omega

/-- `allocate_blocks` allocates nothing beyond the start block when the
requested size is 0 (`BLOCK_SIZE < 0` never holds). -/
theorem allocate_blocks_zero (s : HandleSt) (p : Nat) :
    allocate_blocks s p BLOCK_SIZE 0 = .ok [] := rfl

/-- `write_file_blocks` on empty data with exactly one (valid) target block
counts 0 chunks against 1 block and fails with `IncorrectNumBlocks(0, 1)`,
emitting nothing. -/
theorem write_file_blocks_empty (s : HandleSt) (b : Nat)
    (hb : 0x40 ≤ b ∧ b < s.cardsize - NUM_FATS) :
    write_file_blocks s [] [b] = (.error (.IncorrectNumBlocks 0 1), []) := by
  have hb2 : 64 ≤ b ∧ b < s.cardsize - 16 := by simpa [NUM_FATS] using hb
  simp [write_file_blocks, listChunks, listChunksF, NUM_FATS]
  omega

/-- C9: `WriteFile(&[], name)` with a fresh name (and "temp.tmp" absent) on
a card with a usable free block and a blank directory slot always fails
with `IncorrectNumBlocks(0, 1)` and emits no device events at all — no
data block is written and no FAT generation is committed.  The cause is
structural: `update_fs_links` unconditionally allocates the start block
even for size 0 (one target block), while `write_file_blocks` counts zero
`BLOCK_SIZE` chunks in the empty data, so the two counts can never agree
for empty input. -/
theorem write_empty_file_incorrect_num_blocks (st : HandleSt) (fat : Fat)
    (filename : Bytes) (chkMatch : Bool) (i1 c i2 : Int) (sb bi : Nat)
    (hfat : st.fat = some fat)
    (hnf : find_file fat (toLowercase filename) = none)
    (hnt : find_file fat tempName = none)
    (hfree : find_next_free_block st 0x40 = .ok sb)
    (hsb : sb < st.cardsize - NUM_FATS)
    (hsb16 : sb < 65536)
    (hblank : find_blank_file_entry_idx fat = .ok bi) :
    (WriteFile st [] filename chkMatch i1 c i2).1 = .error (.IncorrectNumBlocks 0 1) ∧
    (WriteFile st [] filename chkMatch i1 c i2).2.2 = [] := by
  have hsbmod : sb % 65536 = sb := Nat.mod_eq_of_lt hsb16
  have hsb_lo : 0x40 ≤ sb := find_next_free_block_lower st 0x40 sb hfree
  have htl : toLowercase tempName = tempName := by decide
  have hnf2 : fat.files.find? (fileMatches (toLowercase filename)) = none := by
    have h := hnf
    simp only [find_file, toLowercase_idem] at h
    exact h
  have hnt2 : fat.files.find? (fileMatches tempName) = none := by
    have h := hnt
    simp only [find_file, htl] at h
    exact h
  have hgidx1 : get_file_idx fat (toLowercase filename) = none := by
    simp only [get_file_idx, toLowercase_idem]
    exact findIdx?_eq_none_of_find?_eq_none _ _ hnf2
  have hgidxT : get_file_idx fat tempName = none := by
    simp only [get_file_idx, htl]
    exact findIdx?_eq_none_of_find?_eq_none _ _ hnt2
  have hdel1 : delete_file st (toLowercase filename) = .ok st := by
    simp only [delete_file, toLowercase_idem, hfat, hgidx1]
  have hdelT : delete_file st tempName = .ok st := by
    simp only [delete_file, htl, hfat, hgidxT]
  have hval : validate_file_write st chkMatch (toLowercase filename) 0 = .ok true := by
    simp only [validate_file_write, toLowercase_idem, hfat, find_file, hnf2]
    simp
  have hsetn : ∀ e : FileEntry, e.set_name tempName = .ok
      { e with name := [116, 101, 109, 112, 0, 0, 0, 0], ext := [116, 109, 112] } :=
    fun _ => rfl
  have hwfe : write_file_entry st tempName sb 0 =
      .ok (stAfterEntry st fat bi sb, tempEntry sb) := by
    simp only [write_file_entry, htl, hfat, hblank, hsetn]
    rfl
  have hupd : update_fs_links (stAfterEntry st fat bi sb) sb 0 =
      .ok (stAfterLinks st fat bi sb, [sb % 65536]) := by
    simp only [update_fs_links, stAfterEntry, allocate_blocks_zero]
    rfl
  have hwfb := write_file_blocks_empty (stAfterLinks st fat bi sb) (sb % 65536)
    (by rw [hsbmod]; exact ⟨hsb_lo, hsb⟩)
  have hwbt : write_blocks_to_temp_file st [] =
      (.error (.IncorrectNumBlocks 0 1), stAfterLinks st fat bi sb, []) := by
    simp only [write_blocks_to_temp_file, hdelT, hfree, List.length_nil, Nat.zero_mod,
      hwfe, tempEntry, Nat.sub_self, hupd, hwfb]
  have hmain : WriteFile st [] filename chkMatch i1 c i2 =
      (.error (.IncorrectNumBlocks 0 1), stAfterLinks st fat bi sb, []) := by
    simp only [WriteFile, List.length_nil, Nat.zero_mod, hval, hdel1, hwbt]
  exact ⟨by rw [hmain], by rw [hmain]⟩

/-- Witness for C9 on the concrete 96-block card `stCard96` (one free block
at 0x41, one blank directory slot, no files). -/
theorem write_empty_file_incorrect_num_blocks_witness :
    (WriteFile stCard96 [] [97] false 0 0 0).1 = .error (.IncorrectNumBlocks 0 1) ∧
    (WriteFile stCard96 [] [97] false 0 0 0).2.2 = [] :=
  write_empty_file_incorrect_num_blocks stCard96 fatCard96 [97] false 0 0 0 0x41 0
    rfl (by decide) (by decide) (by decide) (by decide) (by decide) (by decide)

end BBRDB
